import Mathlib

/-!
Shallow embedding of the "SysCall Secure" OS simulation (src/script.js):
an in-memory virtual filesystem, an audit logger, a process table and the
kernel syscall dispatcher.  JavaScript objects used as string-keyed maps
are modelled as association lists preserving insertion order (JS objects
enumerate string keys in insertion order); in-place mutation is modelled
by functional update along the resolved path.  Audit entries omit the
`id`/`timestamp` fields (wall-clock derived, irrelevant to every property
considered here).
-/

set_option maxRecDepth 10000

/-- A node of the virtual filesystem tree.  JS: objects of shape
`{type:'file', content}` and `{type:'dir', children:{...}}`. -/
inductive Node where
  | file (content : String)
  | dir (children : List (String × Node))

/-- First-match lookup in a children map (JS property access
`children[part]`; JS object keys are unique, so first match is exact). -/
def lookupChild : List (String × Node) → String → Option Node
  | [], _ => none
  | (k, v) :: rest, p => if k = p then some v else lookupChild rest p

/-- Replace the value stored under key `p` (JS in-place assignment to an
existing property).  Keys and order are unchanged. -/
def setChild : List (String × Node) → String → Node → List (String × Node)
  | [], _, _ => []
  | (k, w) :: rest, p, v => if k = p then (k, v) :: rest else (k, w) :: setChild rest p v

/-- Split a character sequence at every `/` (JS `path.split('/')`):
always returns at least one (possibly empty) piece. -/
def splitOnSlash : List Char → List (List Char)
  | [] => [[]]
  | c :: rest =>
    match splitOnSlash rest with
    | [] => [[]]
    | s :: ss => if c = '/' then [] :: s :: ss else (c :: s) :: ss

/-- JS `path.split('/').filter(p => p.length > 0)`: the non-empty path
segments, in order. -/
def segs (path : String) : List String :=
  ((splitOnSlash path.toList).filter (fun s => s ≠ [])).map (fun l => String.mk l)

/-- The resolution loop of `VirtualFileSystem.resolvePath`: descend from
`n` through the given child names; `null` (here `none`) as soon as the
current node is not a directory or lacks the child. -/
def walk : Node → List String → Option Node
  | n, [] => some n
  | Node.file _, _ :: _ => none
  | Node.dir ch, p :: rest =>
    match lookupChild ch p with
    | none => none
    | some c => walk c rest

/-- JS `VirtualFileSystem.resolvePath(path)`; the `path === '/'` fast path
returns the root directly. -/
def resolvePath (root : Node) (path : String) : Option Node :=
  if path = "/" then some root else walk root (segs path)

/-- JS `Array.prototype.join('/')` on a list of segments. -/
def joinSlash : List String → String
  | [] => ""
  | [s] => s
  | s :: rest => s ++ "/" ++ joinSlash rest

/-- JS `VirtualFileSystem.getParentPath(path)`: `null` (here `none`) when
the path has no segments, otherwise the path of all but the last
segment (`'/'` when that is empty). -/
def getParentPath (path : String) : Option String :=
  if segs path = [] then none
  else if (segs path).dropLast = [] then some "/"
  else some ("/" ++ joinSlash (segs path).dropLast)

/-- JS `VirtualFileSystem.getName(path)`: the last non-empty segment
(undefined — never used by the kernel — when there is none). -/
def getName (path : String) : String :=
  (segs path).getLastD ""

/-- Functional counterpart of JS mutation of the node resolved at `ps`:
rebuild the tree with `f` applied to that node.  When the path does not
fully traverse directories the tree is returned unchanged (the callers
below only use it after a successful resolution). -/
def modifyAt : Node → List String → (Node → Node) → Node
  | n, [], f => f n
  | Node.file c, _ :: _, _ => Node.file c
  | Node.dir ch, p :: rest, f =>
    match lookupChild ch p with
    | none => Node.dir ch
    | some child => Node.dir (setChild ch p (modifyAt child rest f))

/-- JS `VirtualFileSystem.fileExists`. -/
def fileExists (root : Node) (path : String) : Bool :=
  (resolvePath root path).isSome

/-- JS `VirtualFileSystem.createFile(path, content)`.  A `none` parent
path makes JS call `resolvePath(null)`, which throws a `TypeError`;
modelled as that error.  New properties are appended after existing keys
(JS insertion order). -/
def createFile (root : Node) (path content : String) : Except String Node :=
  match getParentPath path with
  | none => Except.error "TypeError"
  | some parentPath =>
    match resolvePath root parentPath with
    | none => Except.error "Parent directory does not exist"
    | some (Node.file _) => Except.error "Parent directory does not exist"
    | some (Node.dir ch) =>
      if (lookupChild ch (getName path)).isSome then Except.error "File already exists"
      else Except.ok (modifyAt root (segs parentPath)
        (fun n => match n with
          | Node.dir ch0 => Node.dir (ch0 ++ [(getName path, Node.file content)])
          | other => other))

/-- JS `VirtualFileSystem.readFile(path)`. -/
def readFile (root : Node) (path : String) : Except String String :=
  match resolvePath root path with
  | none => Except.error "File not found"
  | some (Node.dir _) => Except.error "Is a directory"
  | some (Node.file c) => Except.ok c

/-- JS `VirtualFileSystem.writeFile(path, content)`: replaces the content
of the resolved file node in place. -/
def writeFile (root : Node) (path content : String) : Except String Node :=
  match resolvePath root path with
  | none => Except.error "File not found"
  | some (Node.dir _) => Except.error "Is a directory"
  | some (Node.file _) =>
    Except.ok (modifyAt root (segs path) (fun _ => Node.file content))

/-- One row of a `listDir` result (JS `{name, type, size}`). -/
structure DirEntry where
  name : String
  type : String
  size : Nat
deriving Repr, DecidableEq

/-- JS `VirtualFileSystem.listDir(path)`: children in insertion order;
size is content length for files and child count for directories. -/
def listDir (root : Node) (path : String) : Except String (List DirEntry) :=
  match resolvePath root path with
  | none => Except.error "Directory not found"
  | some (Node.file _) => Except.error "Not a directory"
  | some (Node.dir ch) =>
    Except.ok (ch.map (fun kv =>
      match kv.2 with
      | Node.file c => { name := kv.1, type := "file", size := c.length }
      | Node.dir ch2 => { name := kv.1, type := "dir", size := ch2.length }))

/-- The seeded tree built by the `VirtualFileSystem` constructor. -/
def seededFS : Node :=
  Node.dir
    [("home", Node.dir
        [("admin", Node.dir
            [("secret.txt", Node.file "CONFIDENTIAL: Project Blue Book"),
             ("notes.md", Node.file "# To Do\n1. Secure the kernel\n2. Audit logs")]),
         ("guest", Node.dir [])]),
     ("etc", Node.dir
        [("passwd", Node.file "admin:x:0:0:root:/home/admin:/bin/sh"),
         ("config", Node.file "mode=secure")]),
     ("var", Node.dir [("log", Node.dir [])])]

/-- Audit entry status (JS string constants). -/
inductive Status where
  | ALLOWED
  | DENIED
  | ERROR
deriving DecidableEq, Repr

/-- An audit entry, as built by `AuditLogger.log` (the wall-clock `id`
and `timestamp` fields are omitted; `params` keeps the raw argument list
that JS serializes with `JSON.stringify`). -/
structure Entry where
  user : String
  syscall : String
  params : List String
  status : Status
  message : String
deriving DecidableEq, Repr

def mkEntry (user sc : String) (params : List String) (status : Status)
    (message : String) : Entry :=
  { user := user, syscall := sc, params := params, status := status, message := message }

/-- The current session (JS `kernel.currentUser` object); the role is the
literal string `'root'` or `'user'`. -/
structure Session where
  username : String
  role : String
deriving DecidableEq, Repr

/-- A process table record. -/
structure Proc where
  pid : Nat
  name : String
  owner : String
  status : String
deriving DecidableEq, Repr

/-- The whole kernel state: filesystem, audit log (newest first), current
session, process table, next pid counter. -/
structure Kernel where
  fs : Node
  logs : List Entry
  currentUser : Option Session
  processes : List Proc
  nextPid : Nat

/-- JS `hay.includes(needle)`: substring test. -/
def strIncludes (hay needle : String) : Bool :=
  hay.toList.tails.any (fun t => needle.toList.isPrefixOf t)

/-- JS `s.startsWith(pre)`. -/
def jsStartsWith (s pre : String) : Bool :=
  pre.toList.isPrefixOf s.toList

/-- The whitespace characters `parseInt` skips (ASCII subset). -/
def isJsSpace (c : Char) : Bool :=
  c == ' ' || c == '\t' || c == '\n' || c == '\r' || c == Char.ofNat 11 || c == Char.ofNat 12

/-- Value of a digit character below the radix, if any. -/
def digitVal? (radix : Nat) (c : Char) : Option Nat :=
  let v :=
    if '0' ≤ c ∧ c ≤ '9' then some (c.toNat - Char.toNat '0')
    else if 'a' ≤ c ∧ c ≤ 'f' then some (c.toNat - Char.toNat 'a' + 10)
    else if 'A' ≤ c ∧ c ≤ 'F' then some (c.toNat - Char.toNat 'A' + 10)
    else none
  match v with
  | some d => if d < radix then some d else none
  | none => none

/-- JS `parseInt(s)` (no explicit radix): skip leading whitespace, read an
optional sign, detect a `0x`/`0X` hex prefix, then take the longest run
of digits; `none` models `NaN` (no digits at all). -/
def jsParseInt (s : String) : Option Int :=
  let cs := s.toList.dropWhile (fun c => isJsSpace c)
  let sgn : Int := match cs with
    | '-' :: _ => -1
    | _ => 1
  let cs1 := match cs with
    | '-' :: r => r
    | '+' :: r => r
    | _ => cs
  let radix : Nat := match cs1 with
    | '0' :: 'x' :: _ => 16
    | '0' :: 'X' :: _ => 16
    | _ => 10
  let cs2 := match cs1 with
    | '0' :: 'x' :: r => r
    | '0' :: 'X' :: r => r
    | _ => cs1
  let ds := cs2.takeWhile (fun c => (digitVal? radix c).isSome)
  if ds = [] then none
  else some (sgn * (ds.foldl (fun acc c => acc * radix + ((digitVal? radix c).getD 0)) 0 : Nat))

/-- JS `Kernel.createProcess(name, owner)`: allocate `nextPid`, append the
record, bump the counter, return the pid. -/
def createProcess (k : Kernel) (name owner : String) : Nat × Kernel :=
  (k.nextPid,
   { k with
      processes := k.processes ++ [{ pid := k.nextPid, name := name, owner := owner, status := "running" }],
      nextPid := k.nextPid + 1 })

/-- The predicate of `killProcess`'s `findIndex`: `p.pid === parseInt(pid)`
(`NaN` compares false with everything). -/
def pidMatches (pidStr : String) (q : Proc) : Bool :=
  match jsParseInt pidStr with
  | some v => ((q.pid : Int) == v)
  | none => false

/-- JS `Kernel.killProcess(pid)`: remove the first record whose pid equals
`parseInt(pid)`, or fail. -/
def killProcess (k : Kernel) (pidStr : String) : Except String Kernel :=
  match k.processes.findIdx? (pidMatches pidStr) with
  | none => Except.error "Process not found"
  | some i => Except.ok { k with processes := k.processes.eraseIdx i }

/-- JS `Kernel.login(username, password)`: two hardcoded credential
pairs; a match replaces the current session and logs ALLOWED as user
`"system"`; a mismatch logs DENIED and touches nothing else. -/
def login (k : Kernel) (username password : String) : Bool × Kernel :=
  if username = "admin" ∧ password = "admin123" then
    (true, { k with
      currentUser := some { username := "admin", role := "root" },
      logs := mkEntry "system" "login" [username] Status.ALLOWED "Auth successful" :: k.logs })
  else if username = "user" ∧ password = "user123" then
    (true, { k with
      currentUser := some { username := "user", role := "user" },
      logs := mkEntry "system" "login" [username] Status.ALLOWED "Auth successful" :: k.logs })
  else
    (false, { k with
      logs := mkEntry "system" "login" [username] Status.DENIED "Invalid credentials" :: k.logs })

/-- JS `Kernel.logout()`. -/
def logout (k : Kernel) : Kernel :=
  match k.currentUser with
  | some u =>
    { k with
      logs := mkEntry u.username "logout" [] Status.ALLOWED "" :: k.logs,
      currentUser := none }
  | none => k

/-- JS `Kernel.isAdmin()`. -/
def isAdmin (k : Kernel) : Bool :=
  match k.currentUser with
  | some u => u.role == "root"
  | none => false

/-- JS `AuditLogger.clearLogs()`. -/
def clearLogs (k : Kernel) : Kernel :=
  { k with logs := [] }

/-- A syscall's result value (the heterogeneous JS return values). -/
inductive SVal where
  | info (os : String) (user : Session)
  | pid (n : Nat)
  | boolean (b : Bool)
  | content (s : String)
  | fd (s : String)
  | entries (l : List DirEntry)

/-- The `switch` body of `Kernel.syscall`, run with session `u`: either a
result value plus the updated kernel, or the thrown error message.
Missing positional arguments are modelled as `""` (in JS they would be
`undefined` and the handler would throw — another error path). -/
def syscallBody (k : Kernel) (u : Session) (name : String) (args : List String) :
    Except String (SVal × Kernel) :=
  if name = "get_info" then
    Except.ok (SVal.info "SysCall Secure v1.0" u, k)
  else if name = "create_process" then
    if !isAdmin k then Except.error "Permission denied: requires root"
    else
      let r := createProcess k (args.getD 0 "") u.username
      Except.ok (SVal.pid r.1, r.2)
  else if name = "kill_process" then
    if !isAdmin k then Except.error "Permission denied: requires root"
    else (killProcess k (args.getD 0 "")).map (fun k2 => (SVal.boolean true, k2))
  else if name = "open_file" then
    if fileExists k.fs (args.getD 0 "") then Except.ok (SVal.fd "File Descriptor [Mocked]", k)
    else Except.error "File not found"
  else if name = "read_file" then
    if strIncludes (args.getD 0 "") "/shadow" then Except.error "Permission denied"
    else (readFile k.fs (args.getD 0 "")).map (fun c => (SVal.content c, k))
  else if name = "write_file" then
    if !isAdmin k && jsStartsWith (args.getD 0 "") "/etc" then
      Except.error "Permission denied: /etc is read-only"
    else (writeFile k.fs (args.getD 0 "") (args.getD 1 "")).map
      (fun fs2 => (SVal.boolean true, { k with fs := fs2 }))
  else if name = "create_file" then
    (createFile k.fs (args.getD 0 "") (args.getD 1 "")).map
      (fun fs2 => (SVal.boolean true, { k with fs := fs2 }))
  else if name = "list_dir" then
    (listDir k.fs (args.getD 0 "")).map (fun es => (SVal.entries es, k))
  else Except.error "Unknown system call"

/-- JS `Kernel.syscall(name, ...args)`: auth check, dispatch, then exactly
one audit entry — ALLOWED `'Success'` on success; on a thrown error, user
`'anonymous'` when no session, DENIED when the message contains
`'Permission'` and ERROR otherwise — and the error is re-signaled. -/
def syscall (k : Kernel) (name : String) (args : List String) :
    Except String SVal × Kernel :=
  match k.currentUser with
  | none =>
    (Except.error "Not logged in",
     { k with logs := mkEntry "anonymous" name args Status.ERROR "Not logged in" :: k.logs })
  | some u =>
    match syscallBody k u name args with
    | Except.ok (v, k2) =>
      (Except.ok v,
       { k2 with logs := mkEntry u.username name args Status.ALLOWED "Success" :: k2.logs })
    | Except.error msg =>
      (Except.error msg,
       { k with logs :=
          (mkEntry u.username name args
            (if strIncludes msg "Permission" then Status.DENIED else Status.ERROR) msg) :: k.logs })

/-- The kernel state before the constructor's bootstrap `createProcess`
call (audit storage modelled as initially empty). -/
def kernelBase : Kernel :=
  { fs := seededFS, logs := [], currentUser := none, processes := [], nextPid := 100 }

/-- The state the `Kernel` constructor produces: seeded fs, no session,
pid counter at 100 then one bootstrap process `init` (pid 100). -/
def kernelInit : Kernel := (createProcess kernelBase "init" "system").2

/-- A kernel state with a root session and a file literally named
`shadow` at the root of the tree. -/
def shadowKernel : Kernel :=
  { fs := Node.dir [("shadow", Node.file "top secret")],
    logs := [],
    currentUser := some { username := "admin", role := "root" },
    processes := [],
    nextPid := 100 }

/-- The kernel operations reachable from the UI layer. -/
inductive KCall where
  | loginC (username password : String)
  | logoutC
  | sysC (name : String) (args : List String)
  | clearLogsC

/-- The pid issued by a syscall result: `create_process` is the only
handler whose result is a pid. -/
def pidOut : Except String SVal → List Nat
  | Except.ok (SVal.pid m) => [m]
  | _ => []

/-- Run one kernel operation, also reporting the pid it issued, if any. -/
def applyCall (k : Kernel) : KCall → Kernel × List Nat
  | KCall.loginC un pw => ((login k un pw).2, [])
  | KCall.logoutC => (logout k, [])
  | KCall.sysC n a => ((syscall k n a).2, pidOut (syscall k n a).1)
  | KCall.clearLogsC => (clearLogs k, [])

/-- Run a sequence of kernel operations, collecting every issued pid in
order. -/
def runTrace : Kernel → List KCall → Kernel × List Nat
  | k, [] => (k, [])
  | k, c :: cs =>
    ((runTrace (applyCall k c).1 cs).1,
     (applyCall k c).2 ++ (runTrace (applyCall k c).1 cs).2)

example : (syscall kernelInit "get_info" []).1 = Except.error "Not logged in" := rfl
example : (syscall kernelInit "get_info" []).2.logs
    = [mkEntry "anonymous" "get_info" [] Status.ERROR "Not logged in"] := rfl
example : (login kernelInit "admin" "admin123").2.currentUser
    = some { username := "admin", role := "root" } := rfl
example : jsParseInt "100abc" = some 100 := rfl
example : jsParseInt "  -0x1f" = some (-31) := rfl
example : jsParseInt "abc" = none := rfl
example : strIncludes "/etc/shadow" "/shadow" = true := rfl
example : strIncludes "/xshadow" "/shadow" = false := rfl
example : strIncludes "/xshadow" "shadow" = true := rfl
example :
    (syscall (login kernelInit "user" "user123").2 "write_file" ["/etc/config", "x"]).1
    = Except.error "Permission denied: /etc is read-only" := rfl
example :
    (syscall (login kernelInit "admin" "admin123").2 "kill_process" ["100abc"]).2.processes
    = [] := rfl

/-- Unfolding `syscall` when a session is active. -/
theorem syscall_eq_of_some (k : Kernel) (u : Session) (n : String) (a : List String)
    (h : k.currentUser = some u) :
    syscall k n a =
      (match syscallBody k u n a with
       | Except.ok (v, k2) =>
         (Except.ok v,
          { k2 with logs := mkEntry u.username n a Status.ALLOWED "Success" :: k2.logs })
       | Except.error msg =>
         (Except.error msg,
          { k with logs :=
             (mkEntry u.username n a
               (if strIncludes msg "Permission" then Status.DENIED else Status.ERROR) msg) :: k.logs })) := by
  unfold syscall
  rw [h]

/-- Unfolding `syscall` when no session is active. -/
theorem syscall_eq_of_none (k : Kernel) (n : String) (a : List String)
    (h : k.currentUser = none) :
    syscall k n a =
      (Except.error "Not logged in",
       { k with logs := mkEntry "anonymous" n a Status.ERROR "Not logged in" :: k.logs }) := by
  unfold syscall
  rw [h]

/-- What a successfully completed handler can have done to the kernel
state: the audit log and the session are untouched, and the state change
is that of `create_process`, of `kill_process`, or touches at most the
filesystem. -/
theorem syscallBody_ok_state (k : Kernel) (u : Session) (n : String) (a : List String)
    (v : SVal) (k2 : Kernel) (h : syscallBody k u n a = Except.ok (v, k2)) :
    k2.logs = k.logs ∧ k2.currentUser = k.currentUser ∧
    ((v = SVal.pid k.nextPid ∧ k2.nextPid = k.nextPid + 1 ∧
        k2.processes = k.processes ++
          [{ pid := k.nextPid, name := a.getD 0 "", owner := u.username, status := "running" }]) ∨
      (k2.nextPid = k.nextPid ∧ (∃ i, k2.processes = k.processes.eraseIdx i) ∧
        ∀ x, v ≠ SVal.pid x) ∨
      (k2.nextPid = k.nextPid ∧ k2.processes = k.processes ∧ ∀ x, v ≠ SVal.pid x)) := by
  unfold syscallBody at h
  repeat' split at h
  -- get_info
  · cases h
    exact ⟨rfl, rfl, Or.inr (Or.inr ⟨rfl, rfl, fun x hx => by cases hx⟩)⟩
  -- create_process, denied
  · exact Except.noConfusion h
  -- create_process, allowed
  · cases h
    exact ⟨rfl, rfl, Or.inl ⟨rfl, rfl, rfl⟩⟩
  -- kill_process, denied
  · exact Except.noConfusion h
  -- kill_process, allowed
  · rcases hk : killProcess k (a.getD 0 "") with msg | k3
    · rw [hk] at h
      exact Except.noConfusion h
    · rw [hk] at h
      cases h
      unfold killProcess at hk
      split at hk
      · exact Except.noConfusion hk
      · rename_i i hi
        cases hk
        exact ⟨rfl, rfl, Or.inr (Or.inl ⟨rfl, ⟨i, rfl⟩, fun x hx => by cases hx⟩)⟩
  -- open_file, found
  · cases h
    exact ⟨rfl, rfl, Or.inr (Or.inr ⟨rfl, rfl, fun x hx => by cases hx⟩)⟩
  -- open_file, missing
  · exact Except.noConfusion h
  -- read_file, shadow
  · exact Except.noConfusion h
  -- read_file, plain
  · rcases hr : readFile k.fs (a.getD 0 "") with msg | c
    · rw [hr] at h
      exact Except.noConfusion h
    · rw [hr] at h
      cases h
      exact ⟨rfl, rfl, Or.inr (Or.inr ⟨rfl, rfl, fun x hx => by cases hx⟩)⟩
  -- write_file, denied
  · exact Except.noConfusion h
  -- write_file, allowed
  · rcases hw : writeFile k.fs (a.getD 0 "") (a.getD 1 "") with msg | fs2
    · rw [hw] at h
      exact Except.noConfusion h
    · rw [hw] at h
      cases h
      exact ⟨rfl, rfl, Or.inr (Or.inr ⟨rfl, rfl, fun x hx => by cases hx⟩)⟩
  -- create_file
  · rcases hc : createFile k.fs (a.getD 0 "") (a.getD 1 "") with msg | fs2
    · rw [hc] at h
      exact Except.noConfusion h
    · rw [hc] at h
      cases h
      exact ⟨rfl, rfl, Or.inr (Or.inr ⟨rfl, rfl, fun x hx => by cases hx⟩)⟩
  -- list_dir
  · rcases hl : listDir k.fs (a.getD 0 "") with msg | es
    · rw [hl] at h
      exact Except.noConfusion h
    · rw [hl] at h
      cases h
      exact ⟨rfl, rfl, Or.inr (Or.inr ⟨rfl, rfl, fun x hx => by cases hx⟩)⟩
  -- unknown syscall
  · exact Except.noConfusion h

/-- C1: with no active session, every dispatcher invocation fails with
the NotAuthenticated error `'Not logged in'` and appends exactly one
audit entry, attributed to user `"anonymous"` with status ERROR, before
the failure is re-signaled. -/
theorem syscall_noSession_anonymous_error (k : Kernel) (n : String) (a : List String)
    (h : k.currentUser = none) :
    syscall k n a =
      (Except.error "Not logged in",
       { k with logs := mkEntry "anonymous" n a Status.ERROR "Not logged in" :: k.logs }) :=
  syscall_eq_of_none k n a h

/-- Witness for C1 at a concrete input: the freshly constructed kernel
has no session, and any invocation errors with one anonymous ERROR
entry. -/
theorem syscall_noSession_anonymous_error_witness :
    kernelInit.currentUser = none ∧
    syscall kernelInit "open_file" ["/etc/passwd"] =
      (Except.error "Not logged in",
       { kernelInit with logs :=
          [mkEntry "anonymous" "open_file" ["/etc/passwd"] Status.ERROR "Not logged in"] }) :=
  ⟨rfl, syscall_noSession_anonymous_error kernelInit "open_file" ["/etc/passwd"] rfl⟩

/-- C5: every dispatcher invocation — success, denial, or error — grows
the audit log by exactly one entry, and `clearLogs` resets its length to
zero. -/
theorem syscall_audit_growth (k k2 : Kernel) (n : String) (a : List String) :
    ((syscall k n a).2).logs.length = k.logs.length + 1 ∧
    (clearLogs k2).logs.length = 0 := by
  constructor
  · rcases hcu : k.currentUser with _ | u
    · rw [syscall_eq_of_none k n a hcu]
      rfl
    · rw [syscall_eq_of_some k u n a hcu]
      rcases hb : syscallBody k u n a with msg | ⟨v, k3⟩
      · simp
      · have hlogs := (syscallBody_ok_state k u n a v k3 hb).1
        simp [hlogs]
  · rfl

/-- Unfolding the dispatch for `create_process` (arbitrary argument list). -/
theorem syscallBody_create_process_any (k : Kernel) (u : Session) (a : List String) :
    syscallBody k u "create_process" a =
      (if !isAdmin k then Except.error "Permission denied: requires root"
       else Except.ok (SVal.pid (createProcess k (a.getD 0 "") u.username).1,
                       (createProcess k (a.getD 0 "") u.username).2)) := rfl

/-- Unfolding the dispatch for `kill_process` (arbitrary argument list). -/
theorem syscallBody_kill_process_any (k : Kernel) (u : Session) (a : List String) :
    syscallBody k u "kill_process" a =
      (if !isAdmin k then Except.error "Permission denied: requires root"
       else Except.map (fun k2 => (SVal.boolean true, k2)) (killProcess k (a.getD 0 ""))) := rfl

/-- Unfolding the dispatch for `kill_process` with one argument. -/
theorem syscallBody_kill_process_one (k : Kernel) (u : Session) (s : String) :
    syscallBody k u "kill_process" [s] =
      (if !isAdmin k then Except.error "Permission denied: requires root"
       else Except.map (fun k2 => (SVal.boolean true, k2)) (killProcess k s)) := rfl

/-- Unfolding the dispatch for `read_file` with one argument. -/
theorem syscallBody_read_file_one (k : Kernel) (u : Session) (p : String) :
    syscallBody k u "read_file" [p] =
      (if strIncludes p "/shadow" then Except.error "Permission denied"
       else Except.map (fun c => (SVal.content c, k)) (readFile k.fs p)) := rfl

/-- Unfolding the dispatch for `write_file` with two arguments. -/
theorem syscallBody_write_file_two (k : Kernel) (u : Session) (p c : String) :
    syscallBody k u "write_file" [p, c] =
      (if !isAdmin k && jsStartsWith p "/etc" then
        Except.error "Permission denied: /etc is read-only"
       else Except.map (fun fs2 => (SVal.boolean true, { k with fs := fs2 }))
         (writeFile k.fs p c)) := rfl

/-- A non-root session makes `isAdmin` false. -/
theorem isAdmin_false_of_role (k : Kernel) (u : Session) (hu : k.currentUser = some u)
    (hr : u.role ≠ "root") : isAdmin k = false := by
  unfold isAdmin
  rw [hu]
  exact beq_eq_false_iff_ne.mpr hr

/-- A root session makes `isAdmin` true. -/
theorem isAdmin_true_of_role (k : Kernel) (u : Session) (hu : k.currentUser = some u)
    (hr : u.role = "root") : isAdmin k = true := by
  unfold isAdmin
  rw [hu]
  simp [hr]

/-- C2: a failure raised inside a handler is logged DENIED when its
message contains `'Permission'` and ERROR otherwise, and the original
failure is re-signaled unchanged; in particular `create_process` and
`kill_process` under a non-root session fail with the permission-denied
message and are logged DENIED. -/
theorem syscall_failure_classified (k : Kernel) (u : Session) (n : String)
    (a : List String) (m : String) (hu : k.currentUser = some u) :
    (syscallBody k u n a = Except.error m →
      syscall k n a =
        (Except.error m,
         { k with logs :=
            (mkEntry u.username n a
              (if strIncludes m "Permission" then Status.DENIED else Status.ERROR) m) :: k.logs })) ∧
    (u.role ≠ "root" → n = "create_process" ∨ n = "kill_process" →
      syscall k n a =
        (Except.error "Permission denied: requires root",
         { k with logs :=
            mkEntry u.username n a Status.DENIED "Permission denied: requires root" :: k.logs })) := by
  have haux : ∀ m2, syscallBody k u n a = Except.error m2 →
      syscall k n a =
        (Except.error m2,
         { k with logs :=
            (mkEntry u.username n a
              (if strIncludes m2 "Permission" then Status.DENIED else Status.ERROR) m2) :: k.logs }) := by
    intro m2 hb
    rw [syscall_eq_of_some k u n a hu, hb]
  refine ⟨haux m, ?_⟩
  intro hr hn
  have hadm : isAdmin k = false := isAdmin_false_of_role k u hu hr
  have hbody : syscallBody k u n a = Except.error "Permission denied: requires root" := by
    rcases hn with rfl | rfl
    · rw [syscallBody_create_process_any, hadm]
      rfl
    · rw [syscallBody_kill_process_any, hadm]
      rfl
  have h := haux "Permission denied: requires root" hbody
  rw [h]
  rfl

/-- Witness for C2 at a concrete input: a standard-user session invoking
`create_process` is denied and logged DENIED. -/
theorem syscall_failure_classified_witness :
    (syscall (login kernelInit "user" "user123").2 "create_process" ["proc"]).1
      = Except.error "Permission denied: requires root" ∧
    (syscall (login kernelInit "user" "user123").2 "create_process" ["proc"]).2.logs
      = mkEntry "user" "create_process" ["proc"] Status.DENIED "Permission denied: requires root"
          :: (login kernelInit "user" "user123").2.logs := by
  have h := (syscall_failure_classified (login kernelInit "user" "user123").2
      { username := "user", role := "user" } "create_process" ["proc"]
      "Permission denied: requires root" rfl).2 (by decide) (Or.inl rfl)
  rw [h]
  exact ⟨rfl, rfl⟩

/-- Counterexample to C3: the path `"shadow"` contains the literal
segment `shadow` (it is its only segment, and also a substring), yet
`read_file` under a root session succeeds and returns the file content,
because the code only checks for the substring `'/shadow'`. -/
theorem read_file_shadow_not_always_denied :
    shadowKernel.currentUser = some { username := "admin", role := "root" } ∧
    segs "shadow" = ["shadow"] ∧
    strIncludes "shadow" "shadow" = true ∧
    strIncludes "shadow" "/shadow" = false ∧
    (syscall shadowKernel "read_file" ["shadow"]).1 = Except.ok (SVal.content "top secret") :=
  ⟨rfl, rfl, rfl, rfl, rfl⟩

/-- C3 (amended): for every active session — including root — a path
containing the substring `"/shadow"` makes `read_file` fail with
`'Permission denied'` (logged DENIED) and return no content. -/
theorem read_file_slash_shadow_denied (k : Kernel) (u : Session) (p : String)
    (hu : k.currentUser = some u) (hp : strIncludes p "/shadow" = true) :
    syscall k "read_file" [p] =
      (Except.error "Permission denied",
       { k with logs :=
          mkEntry u.username "read_file" [p] Status.DENIED "Permission denied" :: k.logs }) := by
  have hb : syscallBody k u "read_file" [p] = Except.error "Permission denied" := by
    rw [syscallBody_read_file_one, if_pos hp]
  rw [syscall_eq_of_some k u "read_file" [p] hu, hb]
  rfl

/-- Witness for the amended C3 at a concrete input: even the root session
is denied on `/etc/shadow`. -/
theorem read_file_slash_shadow_denied_witness :
    (syscall (login kernelInit "admin" "admin123").2 "read_file" ["/etc/shadow"]).1
      = Except.error "Permission denied" ∧
    (syscall (login kernelInit "admin" "admin123").2 "read_file" ["/etc/shadow"]).2.logs
      = mkEntry "admin" "read_file" ["/etc/shadow"] Status.DENIED "Permission denied"
          :: (login kernelInit "admin" "admin123").2.logs := by
  have h := read_file_slash_shadow_denied (login kernelInit "admin" "admin123").2
      { username := "admin", role := "root" } "/etc/shadow" rfl rfl
  rw [h]
  exact ⟨rfl, rfl⟩

/-- C9: the root credential pair yields a root session, the standard pair
a user session, each returning true and logging ALLOWED as user
`"system"`; every other pair returns false, logs DENIED, and leaves the
session state unchanged — in particular, no session when none was
active. -/
theorem login_credential_table (k : Kernel) (u p : String) :
    login k "admin" "admin123"
      = (true, { k with
          currentUser := some { username := "admin", role := "root" },
          logs := mkEntry "system" "login" ["admin"] Status.ALLOWED "Auth successful" :: k.logs }) ∧
    login k "user" "user123"
      = (true, { k with
          currentUser := some { username := "user", role := "user" },
          logs := mkEntry "system" "login" ["user"] Status.ALLOWED "Auth successful" :: k.logs }) ∧
    (¬(u = "admin" ∧ p = "admin123") → ¬(u = "user" ∧ p = "user123") →
      login k u p
        = (false, { k with
            logs := mkEntry "system" "login" [u] Status.DENIED "Invalid credentials" :: k.logs })
      ∧ (login k u p).2.currentUser = k.currentUser
      ∧ (k.currentUser = none → (login k u p).2.currentUser = none)) := by
  refine ⟨rfl, rfl, ?_⟩
  intro h1 h2
  have e : login k u p
      = (false, { k with
          logs := mkEntry "system" "login" [u] Status.DENIED "Invalid credentials" :: k.logs }) := by
    unfold login
    rw [if_neg h1, if_neg h2]
  refine ⟨e, by rw [e], fun hn => by rw [e]; exact hn⟩

/-- Witness for C9 at a concrete input: an unknown credential pair on the
fresh kernel returns false and leaves no session. -/
theorem login_credential_table_witness :
    (login kernelInit "hacker" "pw").1 = false ∧
    (login kernelInit "hacker" "pw").2.currentUser = none ∧
    (login kernelInit "hacker" "pw").2.logs
      = [mkEntry "system" "login" ["hacker"] Status.DENIED "Invalid credentials"] := by
  have h := (login_credential_table kernelInit "hacker" "pw").2.2
      (by simp) (by simp)
  exact ⟨by rw [h.1], h.2.2 rfl, by rw [h.1]; rfl⟩

/-- `findIdx?` finds an index as soon as some member satisfies the
predicate. -/
theorem findIdx?_isSome_of_mem {α : Type} (p : α → Bool) :
    ∀ (l : List α) (j : Nat), (∃ x ∈ l, p x = true) →
      ∃ i, List.findIdx? p l j = some i := by
  intro l
  induction l with
  | nil =>
    rintro j ⟨x, hx, -⟩
    cases hx
  | cons y ys ih =>
    rintro j ⟨x, hx, hpx⟩
    by_cases hy : p y = true
    · exact ⟨j, by rw [List.findIdx?_cons, if_pos hy]⟩
    · rcases List.mem_cons.mp hx with rfl | hx2
      · exact absurd hpx hy
      · rcases ih (j + 1) ⟨x, hx2, hpx⟩ with ⟨i, hi⟩
        exact ⟨i, by rw [List.findIdx?_cons, if_neg hy]; exact hi⟩

/-- The index `findIdx?` returns points at an element satisfying the
predicate. -/
theorem findIdx?_spec {α : Type} (p : α → Bool) :
    ∀ (l : List α) (j i : Nat), List.findIdx? p l j = some i →
      j ≤ i ∧ ∃ b, l[i - j]? = some b ∧ p b = true := by
  intro l
  induction l with
  | nil =>
    intro j i h
    rw [List.findIdx?_nil] at h
    cases h
  | cons y ys ih =>
    intro j i h
    rw [List.findIdx?_cons] at h
    by_cases hy : p y = true
    · rw [if_pos hy] at h
      cases h
      exact ⟨le_refl j, y, by simp, hy⟩
    · rw [if_neg hy] at h
      rcases ih (j + 1) i h with ⟨hle, b, hb, hpb⟩
      refine ⟨le_trans (Nat.le_succ j) hle, b, ?_, hpb⟩
      have hij : i - j = (i - (j + 1)) + 1 := by omega
      rw [hij]
      simpa using hb

/-- C10: `kill_process` matches its string argument against live pids by
`parseInt` prefix parsing: whenever the parsed integer prefix of the
argument equals the pid of some live process, the call succeeds,
removing the first process whose pid matches, instead of failing with
`'Process not found'`. -/
theorem kill_process_parseInt_prefix (k : Kernel) (u : Session) (s : String) (q : Proc)
    (hu : k.currentUser = some u) (hr : u.role = "root")
    (hq : q ∈ k.processes) (hs : jsParseInt s = some (q.pid : Int)) :
    ∃ i b, k.processes.findIdx? (pidMatches s) = some i ∧
      k.processes[i]? = some b ∧ pidMatches s b = true ∧
      syscall k "kill_process" [s] =
        (Except.ok (SVal.boolean true),
         { k with
            processes := k.processes.eraseIdx i,
            logs := mkEntry u.username "kill_process" [s] Status.ALLOWED "Success" :: k.logs }) := by
  have hmatch : pidMatches s q = true := by
    unfold pidMatches
    rw [hs]
    exact beq_self_eq_true _
  obtain ⟨i, hi⟩ := findIdx?_isSome_of_mem (pidMatches s) k.processes 0 ⟨q, hq, hmatch⟩
  obtain ⟨-, b, hb, hpb⟩ := findIdx?_spec (pidMatches s) k.processes 0 i hi
  have hadm : isAdmin k = true := isAdmin_true_of_role k u hu hr
  have hkill : killProcess k s = Except.ok { k with processes := k.processes.eraseIdx i } := by
    unfold killProcess
    rw [hi]
  have hbody : syscallBody k u "kill_process" [s]
      = Except.ok (SVal.boolean true, { k with processes := k.processes.eraseIdx i }) := by
    rw [syscallBody_kill_process_one, hadm, hkill]
    rfl
  refine ⟨i, b, hi, by simpa using hb, hpb, ?_⟩
  rw [syscall_eq_of_some k u "kill_process" [s] hu, hbody]

/-- Witness for C10 at a concrete input: under the root session,
`kill_process("100abc")` removes the bootstrap process with pid 100. -/
theorem kill_process_parseInt_prefix_witness :
    jsParseInt "100abc" = some (100 : Int) ∧
    (syscall (login kernelInit "admin" "admin123").2 "kill_process" ["100abc"]).1
      = Except.ok (SVal.boolean true) ∧
    (syscall (login kernelInit "admin" "admin123").2 "kill_process" ["100abc"]).2.processes
      = [] := by
  obtain ⟨i, b, hi, hb, hpb, h⟩ := kill_process_parseInt_prefix
      (login kernelInit "admin" "admin123").2 { username := "admin", role := "root" }
      "100abc" { pid := 100, name := "init", owner := "system", status := "running" }
      rfl rfl (by decide) rfl
  have hi0 : i = 0 := by
    have := hi
    rw [show (login kernelInit "admin" "admin123").2.processes
        = [{ pid := 100, name := "init", owner := "system", status := "running" }] from rfl] at this
    rw [List.findIdx?_cons] at this
    rw [if_pos (by decide)] at this
    exact (Option.some.injEq _ _).mp this.symm
  subst hi0
  rw [h]
  exact ⟨rfl, rfl, rfl⟩

example : segs "/home//admin" = ["home", "admin"] := by decide
example : segs "/" = [] := by decide
example : getParentPath "/home/x.txt" = some "/home" := by decide
example : getName "/home/x.txt" = "x.txt" := by decide
example : resolvePath seededFS "/etc/passwd"
    = some (Node.file "admin:x:0:0:root:/home/admin:/bin/sh") := rfl
example : readFile seededFS "/etc/config" = Except.ok "mode=secure" := rfl
example : (createFile seededFS "/home/guest/a.txt" "hi").isOk = true := rfl
example : resolvePath seededFS "//etc//passwd" = resolvePath seededFS "/etc/passwd" := rfl

/-! ### Path and tree lemmas -/

theorem toList_append (a b : String) : (a ++ b).toList = a.toList ++ b.toList :=
  String.data_append a b

theorem mk_toList (s : String) : String.mk s.toList = s := by
  cases s
  rfl

theorem toList_ne_nil (s : String) (h : s ≠ "") : s.toList ≠ [] := by
  intro h0
  apply h
  have := congrArg String.mk h0
  rwa [mk_toList] at this

/-- Resolution of a concatenated segment list walks the two parts in
turn. -/
theorem walk_append (a b : List String) : ∀ n : Node,
    walk n (a ++ b) = (walk n a).bind (fun m => walk m b) := by
  induction a with
  | nil =>
    intro n
    simp [walk]
  | cons p rest ih =>
    intro n
    cases n with
    | file c => simp [walk]
    | dir ch =>
      rw [List.cons_append]
      simp only [walk]
      cases hl : lookupChild ch p with
      | none => simp
      | some c => simp [ih c]

/-- Looking up the key that `setChild` replaced yields the new value. -/
theorem lookupChild_setChild : ∀ (ch : List (String × Node)) (p : String) (v : Node),
    (lookupChild ch p).isSome → lookupChild (setChild ch p v) p = some v := by
  intro ch
  induction ch with
  | nil =>
    intro p v h
    simp [lookupChild] at h
  | cons kv rest ih =>
    intro p v h
    obtain ⟨k, w⟩ := kv
    by_cases hk : k = p
    · simp [setChild, lookupChild, hk]
    · simp only [setChild, lookupChild, if_neg hk] at h ⊢
      exact ih p v h

/-- Appending a fresh key at the end of a children map makes it
retrievable. -/
theorem lookupChild_append (ch : List (String × Node)) (p : String) (v : Node)
    (h : lookupChild ch p = none) : lookupChild (ch ++ [(p, v)]) p = some v := by
  induction ch with
  | nil => simp [lookupChild]
  | cons kv rest ih =>
    obtain ⟨k, w⟩ := kv
    by_cases hk : k = p
    · rw [show lookupChild ((k, w) :: rest) p = if k = p then some w else lookupChild rest p
          from rfl, if_pos hk] at h
      exact Option.noConfusion h
    · rw [show lookupChild ((k, w) :: rest) p = if k = p then some w else lookupChild rest p
          from rfl, if_neg hk] at h
      show (if k = p then some w else lookupChild (rest ++ [(p, v)]) p) = some v
      rw [if_neg hk]
      exact ih h

/-- Functionally updating the node at a resolvable segment list is
observable at that same segment list. -/
theorem walk_modifyAt (f : Node → Node) : ∀ (ps : List String) (root n : Node),
    walk root ps = some n → walk (modifyAt root ps f) ps = some (f n) := by
  intro ps
  induction ps with
  | nil =>
    intro root n h
    simp only [walk] at h ⊢
    cases h
    simp only [modifyAt]
  | cons p rest ih =>
    intro root n h
    cases root with
    | file c => simp [walk] at h
    | dir ch =>
      simp only [walk] at h
      cases hl : lookupChild ch p with
      | none =>
        rw [hl] at h
        exact Option.noConfusion h
      | some child =>
        rw [hl] at h
        replace h : walk child rest = some n := h
        have hlk : lookupChild (setChild ch p (modifyAt child rest f)) p
            = some (modifyAt child rest f) :=
          lookupChild_setChild ch p _ (by rw [hl]; rfl)
        simp only [modifyAt]
        rw [hl]
        simp only [walk]
        rw [hlk]
        exact ih child n h

theorem resolvePath_eq_walk (root : Node) (p : String) :
    resolvePath root p = walk root (segs p) := by
  unfold resolvePath
  by_cases h : p = "/"
  · rw [if_pos h, h]
    rw [show segs "/" = [] from by decide]
    simp [walk]
  · rw [if_neg h]

theorem splitOnSlash_ne_nil : ∀ cs : List Char, splitOnSlash cs ≠ [] := by
  intro cs
  cases cs with
  | nil => exact fun h => List.noConfusion h
  | cons c rest =>
    show (match splitOnSlash rest with
          | [] => [[]]
          | s :: ss => if c = '/' then [] :: s :: ss else (c :: s) :: ss) ≠ []
    cases hr : splitOnSlash rest with
    | nil => simp
    | cons s ss => by_cases hc : c = '/' <;> simp [hc]

theorem splitOnSlash_slash_cons (t : List Char) :
    splitOnSlash ('/' :: t) = [] :: splitOnSlash t := by
  cases hr : splitOnSlash t with
  | nil => exact absurd hr (splitOnSlash_ne_nil t)
  | cons s ss =>
    simp only [splitOnSlash]
    rw [hr]
    simp

theorem splitOnSlash_cons_ne (c : Char) (rest : List Char) (hc : c ≠ '/')
    (s : List Char) (ss : List (List Char)) (hr : splitOnSlash rest = s :: ss) :
    splitOnSlash (c :: rest) = (c :: s) :: ss := by
  simp only [splitOnSlash]
  rw [hr]
  simp [hc]

theorem splitOnSlash_no_slash : ∀ (cs s : List Char), s ∈ splitOnSlash cs → '/' ∉ s := by
  intro cs
  induction cs with
  | nil =>
    intro s hs
    simp [splitOnSlash] at hs
    subst hs
    simp
  | cons c rest ih =>
    intro s hs
    cases hr : splitOnSlash rest with
    | nil => exact absurd hr (splitOnSlash_ne_nil rest)
    | cons s2 ss =>
      by_cases hc : c = '/'
      · subst hc
        rw [splitOnSlash_slash_cons] at hs
        rcases List.mem_cons.mp hs with rfl | hs2
        · simp
        · exact ih s hs2
      · rw [splitOnSlash_cons_ne c rest hc s2 ss hr] at hs
        rcases List.mem_cons.mp hs with rfl | hs2
        · intro hmem
          rcases List.mem_cons.mp hmem with he | hmem2
          · exact hc he.symm
          · exact ih s2 (by rw [hr]; exact List.mem_cons_self s2 ss) hmem2
        · exact ih s (by rw [hr]; exact List.mem_cons.mpr (Or.inr hs2))

theorem splitOnSlash_of_no_slash : ∀ cs : List Char, '/' ∉ cs → splitOnSlash cs = [cs] := by
  intro cs
  induction cs with
  | nil => intro _; rfl
  | cons c rest ih =>
    intro h
    have hc : c ≠ '/' := fun he => h (he ▸ List.mem_cons_self c rest)
    have hrest : '/' ∉ rest := fun hm => h (List.mem_cons.mpr (Or.inr hm))
    show (match splitOnSlash rest with
          | [] => [[]]
          | s :: ss => if c = '/' then [] :: s :: ss else (c :: s) :: ss) = [c :: rest]
    rw [ih hrest]
    simp [fun he => hc he]

theorem splitOnSlash_append (a : List Char) : ∀ (t s : List Char) (ss : List (List Char)),
    '/' ∉ a → splitOnSlash t = s :: ss → splitOnSlash (a ++ t) = (a ++ s) :: ss := by
  induction a with
  | nil =>
    intro t s ss _ ht
    simpa using ht
  | cons c a2 ih =>
    intro t s ss ha ht
    have hc : c ≠ '/' := fun he => ha (he ▸ List.mem_cons_self c a2)
    have ha2 : '/' ∉ a2 := fun hm => ha (List.mem_cons.mpr (Or.inr hm))
    show (match splitOnSlash (a2 ++ t) with
          | [] => [[]]
          | s2 :: ss2 => if c = '/' then [] :: s2 :: ss2 else (c :: s2) :: ss2)
        = (c :: (a2 ++ s)) :: ss
    rw [ih t s ss ha2 ht]
    simp [fun he => hc he]

theorem splitOnSlash_join : ∀ L : List String, L ≠ [] → (∀ s ∈ L, '/' ∉ s.toList) →
    splitOnSlash (joinSlash L).toList = L.map String.toList := by
  intro L
  induction L with
  | nil => intro h; exact absurd rfl h
  | cons s rest ih =>
    intro _ hfree
    cases rest with
    | nil => exact splitOnSlash_of_no_slash _ (hfree s (by simp))
    | cons s2 rest2 =>
      have hj : (joinSlash (s :: s2 :: rest2)).toList
          = s.toList ++ '/' :: (joinSlash (s2 :: rest2)).toList := by
        show (s ++ "/" ++ joinSlash (s2 :: rest2)).toList = _
        rw [toList_append, toList_append,
          show ("/" : String).toList = ['/'] from by decide]
        simp
      rw [hj]
      rw [splitOnSlash_append s.toList _ _ _ (hfree s (by simp)) (splitOnSlash_slash_cons _)]
      rw [ih (by simp) (fun x hx => hfree x (List.mem_cons.mpr (Or.inr hx)))]
      simp

theorem segs_slash_join (L : List String) (hne : L ≠ [])
    (hL : ∀ s ∈ L, s ≠ "" ∧ '/' ∉ s.toList) :
    segs ("/" ++ joinSlash L) = L := by
  unfold segs
  have h1 : ("/" ++ joinSlash L).toList = '/' :: (joinSlash L).toList := by
    rw [toList_append]
    rfl
  rw [h1, splitOnSlash_slash_cons, splitOnSlash_join L hne (fun s hs => (hL s hs).2)]
  have hfil : (List.map String.toList L).filter (fun s => s ≠ []) = List.map String.toList L := by
    rw [List.filter_eq_self]
    intro x hx
    rcases List.mem_map.mp hx with ⟨s, hs, rfl⟩
    simpa using toList_ne_nil s (hL s hs).1
  rw [List.filter_cons, if_neg (by decide), hfil, List.map_map]
  have hid : ∀ s ∈ L, (String.mk ∘ String.toList) s = s := fun s _ => mk_toList s
  calc List.map (String.mk ∘ String.toList) L = List.map id L := List.map_congr_left hid
    _ = L := List.map_id L

theorem segs_elements (p : String) : ∀ s ∈ segs p, s ≠ "" ∧ '/' ∉ s.toList := by
  intro s hs
  unfold segs at hs
  rcases List.mem_map.mp hs with ⟨l, hl, rfl⟩
  have hl2 := List.mem_filter.mp hl
  have hlne : l ≠ [] := by simpa using hl2.2
  constructor
  · intro h0
    exact hlne (by simpa using congrArg String.toList h0)
  · exact splitOnSlash_no_slash p.toList l hl2.1

theorem getParentPath_segs (p pp : String) (h : getParentPath p = some pp) :
    segs p ≠ [] ∧ segs pp = (segs p).dropLast := by
  unfold getParentPath at h
  by_cases h1 : segs p = []
  · rw [if_pos h1] at h
    exact Option.noConfusion h
  · rw [if_neg h1] at h
    by_cases h2 : (segs p).dropLast = []
    · rw [if_pos h2] at h
      cases h
      exact ⟨h1, by rw [h2]; rfl⟩
    · rw [if_neg h2] at h
      cases h
      refine ⟨h1, ?_⟩
      exact segs_slash_join _ h2
        (fun s hs => segs_elements p s ((List.dropLast_sublist (segs p)).subset hs))

theorem segs_decomp (p : String) (h : segs p ≠ []) :
    segs p = (segs p).dropLast ++ [getName p] := by
  have h2 : getName p = (segs p).getLast h := by
    unfold getName
    rw [List.getLastD_eq_getLast?, List.getLast?_eq_getLast _ h]
    rfl
  rw [h2]
  exact (List.dropLast_append_getLast h).symm

/-- `createFile` at a fresh path under an existing parent directory makes
`readFile` return the new content. -/
theorem createFile_then_readFile (fs : Node) (p pp c : String) (ch : List (String × Node))
    (hpp : getParentPath p = some pp)
    (hpar : resolvePath fs pp = some (Node.dir ch))
    (hnone : resolvePath fs p = none) :
    ∃ fs2, createFile fs p c = Except.ok fs2 ∧ readFile fs2 p = Except.ok c := by
  obtain ⟨hne, hseg⟩ := getParentPath_segs p pp hpp
  have hdecomp := segs_decomp p hne
  have hw_par : walk fs (segs pp) = some (Node.dir ch) := by
    rw [← resolvePath_eq_walk]
    exact hpar
  have hw_p : walk fs (segs p) = none := by
    rw [← resolvePath_eq_walk]
    exact hnone
  have hlk : lookupChild ch (getName p) = none := by
    rw [hdecomp, walk_append, ← hseg, hw_par] at hw_p
    cases hl : lookupChild ch (getName p) with
    | none => rfl
    | some c2 =>
      rw [show (some (Node.dir ch)).bind (fun m => walk m [getName p])
          = (match lookupChild ch (getName p) with
             | none => none
             | some c3 => walk c3 []) from rfl, hl] at hw_p
      exact absurd hw_p (by simp [walk])
  have hcf : createFile fs p c = Except.ok (modifyAt fs (segs pp)
      (fun n => match n with
        | Node.dir ch0 => Node.dir (ch0 ++ [(getName p, Node.file c)])
        | other => other)) := by
    unfold createFile
    simp only [hpp, hpar, hlk, Option.isSome_none, Bool.false_eq_true, if_false]
  refine ⟨_, hcf, ?_⟩
  have hw2 := walk_modifyAt
    (fun n => match n with
      | Node.dir ch0 => Node.dir (ch0 ++ [(getName p, Node.file c)])
      | other => other) (segs pp) fs _ hw_par
  have hw3 : walk (modifyAt fs (segs pp)
      (fun n => match n with
        | Node.dir ch0 => Node.dir (ch0 ++ [(getName p, Node.file c)])
        | other => other)) (segs p) = some (Node.file c) := by
    rw [hdecomp, ← hseg, walk_append, hw2]
    show walk (Node.dir (ch ++ [(getName p, Node.file c)])) [getName p] = some (Node.file c)
    rw [show walk (Node.dir (ch ++ [(getName p, Node.file c)])) [getName p]
        = (match lookupChild (ch ++ [(getName p, Node.file c)]) (getName p) with
           | none => none
           | some c3 => walk c3 []) from rfl,
       lookupChild_append ch (getName p) (Node.file c) hlk]
    rfl
  unfold readFile
  rw [resolvePath_eq_walk, hw3]

/-- `writeFile` on an existing file makes `readFile` return the new
content. -/
theorem writeFile_then_readFile (fs : Node) (p c0 c2 : String)
    (hf : resolvePath fs p = some (Node.file c0)) :
    ∃ fs2, writeFile fs p c2 = Except.ok fs2 ∧ readFile fs2 p = Except.ok c2 := by
  have hw : walk fs (segs p) = some (Node.file c0) := by
    rw [← resolvePath_eq_walk]
    exact hf
  have hw2 := walk_modifyAt (fun _ => Node.file c2) (segs p) fs _ hw
  refine ⟨modifyAt fs (segs p) (fun _ => Node.file c2), ?_, ?_⟩
  · unfold writeFile
    rw [hf]
  · unfold readFile
    rw [resolvePath_eq_walk, hw2]

/-- C6: creating a file at a fresh path whose parent directory exists and
then reading it returns exactly the written content; overwriting an
existing file and then reading it returns exactly the new content. -/
theorem vfs_create_write_read_roundtrip (fs fsb : Node) (p pp pb c c0 c2 : String)
    (ch : List (String × Node)) :
    (getParentPath p = some pp → resolvePath fs pp = some (Node.dir ch) →
      resolvePath fs p = none →
      ∃ fs2, createFile fs p c = Except.ok fs2 ∧ readFile fs2 p = Except.ok c) ∧
    (resolvePath fsb pb = some (Node.file c0) →
      ∃ fs3, writeFile fsb pb c2 = Except.ok fs3 ∧ readFile fs3 pb = Except.ok c2) :=
  ⟨fun hpp hpar hnone => createFile_then_readFile fs p pp c ch hpp hpar hnone,
   fun hf => writeFile_then_readFile fsb pb c0 c2 hf⟩

/-- Witness for C6 at concrete inputs on the seeded tree. -/
theorem vfs_create_write_read_roundtrip_witness :
    (∃ fs2, createFile seededFS "/home/guest/a.txt" "hi" = Except.ok fs2 ∧
       readFile fs2 "/home/guest/a.txt" = Except.ok "hi") ∧
    (∃ fs3, writeFile seededFS "/etc/config" "mode=off" = Except.ok fs3 ∧
       readFile fs3 "/etc/config" = Except.ok "mode=off") := by
  have h := vfs_create_write_read_roundtrip seededFS seededFS
    "/home/guest/a.txt" "/home/guest" "/etc/config" "hi" "mode=secure" "mode=off" []
  exact ⟨h.1 rfl rfl rfl, h.2 rfl⟩

/-- `isPrefixOf` still holds after dropping the last element of the
sought pattern. -/
theorem isPrefixOf_drop_last : ∀ (a : List Char) (x : Char) (t : List Char),
    (a ++ [x]).isPrefixOf t = true → a.isPrefixOf t = true := by
  intro a
  induction a with
  | nil =>
    intro x t _
    simp [List.isPrefixOf]
  | cons c a2 ih =>
    intro x t h
    cases t with
    | nil => exact absurd h (by simp [List.isPrefixOf])
    | cons c2 t2 =>
      simp only [List.cons_append, List.isPrefixOf, Bool.and_eq_true] at h
      simp only [List.isPrefixOf, Bool.and_eq_true]
      exact ⟨h.1, ih x t2 h.2⟩

/-- C4: for every path strictly under `/etc` that resolves to an existing
file, `write_file` is denied (and logged DENIED) under a non-root
session, and under a root session it succeeds and replaces the file
content. -/
theorem write_file_etc_policy (k : Kernel) (u : Session) (p c c2 : String)
    (hu : k.currentUser = some u)
    (hp : jsStartsWith p "/etc/" = true)
    (hf : resolvePath k.fs p = some (Node.file c)) :
    (u.role ≠ "root" →
      syscall k "write_file" [p, c2] =
        (Except.error "Permission denied: /etc is read-only",
         { k with logs :=
            (mkEntry u.username "write_file" [p, c2] Status.DENIED
              "Permission denied: /etc is read-only") :: k.logs })) ∧
    (u.role = "root" →
      (syscall k "write_file" [p, c2]).1 = Except.ok (SVal.boolean true) ∧
      resolvePath ((syscall k "write_file" [p, c2]).2).fs p = some (Node.file c2)) := by
  have hp4 : jsStartsWith p "/etc" = true := by
    unfold jsStartsWith at hp ⊢
    have he : ("/etc/").toList = ("/etc").toList ++ ['/'] := rfl
    rw [he] at hp
    exact isPrefixOf_drop_last _ '/' _ hp
  constructor
  · intro hr
    have hadm := isAdmin_false_of_role k u hu hr
    have hbody : syscallBody k u "write_file" [p, c2]
        = Except.error "Permission denied: /etc is read-only" := by
      rw [syscallBody_write_file_two, hadm, hp4]
      rfl
    rw [syscall_eq_of_some k u "write_file" [p, c2] hu, hbody]
    rfl
  · intro hr
    have hadm := isAdmin_true_of_role k u hu hr
    have hwf : writeFile k.fs p c2
        = Except.ok (modifyAt k.fs (segs p) (fun _ => Node.file c2)) := by
      unfold writeFile
      rw [hf]
    have hbody : syscallBody k u "write_file" [p, c2]
        = Except.ok (SVal.boolean true,
            { k with fs := modifyAt k.fs (segs p) (fun _ => Node.file c2) }) := by
      rw [syscallBody_write_file_two, hadm, hwf]
      rfl
    rw [syscall_eq_of_some k u "write_file" [p, c2] hu, hbody]
    refine ⟨rfl, ?_⟩
    show resolvePath (modifyAt k.fs (segs p) (fun _ => Node.file c2)) p = some (Node.file c2)
    rw [resolvePath_eq_walk]
    exact walk_modifyAt _ (segs p) k.fs _ (by rw [← resolvePath_eq_walk]; exact hf)

/-- Witness for C4 at a concrete input: `/etc/config` is write-protected
for the standard user and writable (with the content replaced) for
root. -/
theorem write_file_etc_policy_witness :
    (syscall (login kernelInit "user" "user123").2 "write_file" ["/etc/config", "x"]).1
      = Except.error "Permission denied: /etc is read-only" ∧
    (syscall (login kernelInit "admin" "admin123").2 "write_file" ["/etc/config", "x"]).1
      = Except.ok (SVal.boolean true) ∧
    resolvePath
        ((syscall (login kernelInit "admin" "admin123").2 "write_file" ["/etc/config", "x"]).2).fs
        "/etc/config"
      = some (Node.file "x") := by
  have h1 := (write_file_etc_policy (login kernelInit "user" "user123").2
      { username := "user", role := "user" } "/etc/config" "mode=secure" "x"
      rfl rfl rfl).1 (by decide)
  have h2 := (write_file_etc_policy (login kernelInit "admin" "admin123").2
      { username := "admin", role := "root" } "/etc/config" "mode=secure" "x"
      rfl rfl rfl).2 rfl
  exact ⟨by rw [h1], h2.1, h2.2⟩

/-! ### Pid allocation over arbitrary call traces -/

theorem pidOut_ok_not_pid (v : SVal) (h : ∀ x, v ≠ SVal.pid x) :
    pidOut (Except.ok v) = [] := by
  cases v with
  | pid m => exact absurd rfl (h m)
  | info a b => rfl
  | boolean b => rfl
  | content s => rfl
  | fd s => rfl
  | entries l => rfl

theorem login_keeps_table (k : Kernel) (un pw : String) :
    (login k un pw).2.processes = k.processes ∧ (login k un pw).2.nextPid = k.nextPid := by
  unfold login
  split_ifs <;> exact ⟨rfl, rfl⟩

theorem logout_keeps_table (k : Kernel) :
    (logout k).processes = k.processes ∧ (logout k).nextPid = k.nextPid := by
  unfold logout
  cases k.currentUser <;> exact ⟨rfl, rfl⟩

/-- A step that neither issues a pid nor touches the process table or pid
counter satisfies all per-call obligations. -/
theorem trivialStep (k k2 : Kernel) (hp : k2.processes = k.processes)
    (hn : k2.nextPid = k.nextPid) :
    k.nextPid ≤ k2.nextPid ∧
    List.Chain' (· < ·) ([] : List Nat) ∧
    (∀ x ∈ ([] : List Nat), k.nextPid ≤ x ∧ x < k2.nextPid) ∧
    (∀ q ∈ k2.processes, q.pid ∈ List.map Proc.pid k.processes ∨ q.pid ∈ ([] : List Nat)) := by
  refine ⟨le_of_eq hn.symm, List.chain'_nil,
    fun x hx => absurd hx (List.not_mem_nil x), fun q hq => Or.inl ?_⟩
  rw [hp] at hq
  exact List.mem_map.mpr ⟨q, hq, rfl⟩

/-- Per-call facts: the pid counter never decreases, issued pids lie in
the window between the counter before and after the call, and every pid
in the resulting table was in the previous table or was just issued. -/
theorem applyCall_facts (k : Kernel) (c : KCall) :
    k.nextPid ≤ (applyCall k c).1.nextPid ∧
    List.Chain' (· < ·) (applyCall k c).2 ∧
    (∀ x ∈ (applyCall k c).2, k.nextPid ≤ x ∧ x < (applyCall k c).1.nextPid) ∧
    (∀ q ∈ (applyCall k c).1.processes,
       q.pid ∈ List.map Proc.pid k.processes ∨ q.pid ∈ (applyCall k c).2) := by
  cases c with
  | loginC un pw =>
    exact trivialStep k _ (login_keeps_table k un pw).1 (login_keeps_table k un pw).2
  | logoutC =>
    exact trivialStep k _ (logout_keeps_table k).1 (logout_keeps_table k).2
  | clearLogsC =>
    exact trivialStep k _ rfl rfl
  | sysC n a =>
    rcases hcu : k.currentUser with _ | u
    · have hs := syscall_eq_of_none k n a hcu
      simp only [applyCall]
      rw [hs]
      exact trivialStep k _ rfl rfl
    · rcases hb : syscallBody k u n a with msg | ⟨v, k3⟩
      · have hs := syscall_eq_of_some k u n a hcu
        rw [hb] at hs
        simp only [applyCall]
        rw [hs]
        exact trivialStep k _ rfl rfl
      · have hs := syscall_eq_of_some k u n a hcu
        rw [hb] at hs
        obtain ⟨hlogs, hcu3, hdisj⟩ := syscallBody_ok_state k u n a v k3 hb
        simp only [applyCall]
        rw [hs]
        show k.nextPid ≤ k3.nextPid ∧
          List.Chain' (· < ·) (pidOut (Except.ok v)) ∧
          (∀ x ∈ pidOut (Except.ok v), k.nextPid ≤ x ∧ x < k3.nextPid) ∧
          (∀ q ∈ k3.processes,
             q.pid ∈ List.map Proc.pid k.processes ∨ q.pid ∈ pidOut (Except.ok v))
        rcases hdisj with ⟨hv, hnp, hpr⟩ | ⟨hnp, ⟨i, hpr⟩, hnv⟩ | ⟨hnp, hpr, hnv⟩
        · subst hv
          refine ⟨by rw [hnp]; exact Nat.le_succ _, List.chain'_singleton _, ?_, ?_⟩
          · intro x hx
            have hx2 : x = k.nextPid := List.mem_singleton.mp hx
            subst hx2
            exact ⟨le_refl _, by rw [hnp]; exact Nat.lt_succ_self _⟩
          · intro q hq
            rw [hpr] at hq
            rcases List.mem_append.mp hq with h1 | h2
            · exact Or.inl (List.mem_map.mpr ⟨q, h1, rfl⟩)
            · right
              have hq2 := List.mem_singleton.mp h2
              rw [hq2]
              exact List.mem_singleton.mpr rfl
        · rw [pidOut_ok_not_pid v hnv]
          refine ⟨le_of_eq hnp.symm, List.chain'_nil,
            fun x hx => absurd hx (List.not_mem_nil x), fun q hq => Or.inl ?_⟩
          rw [hpr] at hq
          exact List.mem_map.mpr ⟨q, (List.eraseIdx_sublist k.processes i).subset hq, rfl⟩
        · rw [pidOut_ok_not_pid v hnv]
          refine ⟨le_of_eq hnp.symm, List.chain'_nil,
            fun x hx => absurd hx (List.not_mem_nil x), fun q hq => Or.inl ?_⟩
          rw [hpr] at hq
          exact List.mem_map.mpr ⟨q, hq, rfl⟩

/-- Trace-level facts: pids issued along any trace form a strictly
increasing sequence bounded below by the starting counter, and every pid
in the final table was in the starting table or was issued along the
trace. -/
theorem runTrace_facts : ∀ (cs : List KCall) (k : Kernel),
    k.nextPid ≤ (runTrace k cs).1.nextPid ∧
    List.Chain' (· < ·) (runTrace k cs).2 ∧
    (∀ x ∈ (runTrace k cs).2, k.nextPid ≤ x ∧ x < (runTrace k cs).1.nextPid) ∧
    (∀ q ∈ (runTrace k cs).1.processes,
       q.pid ∈ List.map Proc.pid k.processes ∨ q.pid ∈ (runTrace k cs).2) := by
  intro cs
  induction cs with
  | nil =>
    intro k
    refine ⟨le_refl _, List.chain'_nil,
      fun x hx => absurd hx (List.not_mem_nil x), fun q hq => Or.inl ?_⟩
    exact List.mem_map.mpr ⟨q, hq, rfl⟩
  | cons c cs2 ih =>
    intro k
    obtain ⟨ha1, hac, ha2, ha3⟩ := applyCall_facts k c
    obtain ⟨hi1, hi2, hi3, hi4⟩ := ih (applyCall k c).1
    refine ⟨le_trans ha1 hi1, ?_, ?_, ?_⟩
    · show List.Chain' (· < ·) ((applyCall k c).2 ++ (runTrace (applyCall k c).1 cs2).2)
      refine List.Chain'.append hac hi2 ?_
      intro x hx y hy
      have hxm := ha2 x (List.mem_of_mem_getLast? hx)
      have hym := hi3 y (List.mem_of_mem_head? hy)
      exact lt_of_lt_of_le hxm.2 hym.1
    · show ∀ x ∈ (applyCall k c).2 ++ (runTrace (applyCall k c).1 cs2).2,
        k.nextPid ≤ x ∧ x < (runTrace k (c :: cs2)).1.nextPid
      intro x hx
      rcases List.mem_append.mp hx with h1 | h2
      · exact ⟨(ha2 x h1).1, lt_of_lt_of_le (ha2 x h1).2 hi1⟩
      · exact ⟨le_trans ha1 (hi3 x h2).1, (hi3 x h2).2⟩
    · show ∀ q ∈ (runTrace (applyCall k c).1 cs2).1.processes,
        q.pid ∈ List.map Proc.pid k.processes ∨
        q.pid ∈ (applyCall k c).2 ++ (runTrace (applyCall k c).1 cs2).2
      intro q hq
      rcases hi4 q hq with h | h
      · rcases List.mem_map.mp h with ⟨q2, hq2, hpid⟩
        rcases ha3 q2 hq2 with h2 | h2
        · rw [hpid] at h2
          exact Or.inl h2
        · rw [← hpid]
          exact Or.inr (List.mem_append.mpr (Or.inl h2))
      · exact Or.inr (List.mem_append.mpr (Or.inr h))

/-- C7: across every sequence of kernel operations the issued pids —
the bootstrap pid 100 followed by those returned by `create_process` —
form a strictly increasing sequence starting at the base 100; hence
pids are unique across the lifetime of the process table and are never
reused even after `kill_process` removes a record, and every pid in the
final table was issued along the way. -/
theorem pid_allocation_monotone (cs : List KCall) :
    List.Chain' (· < ·) (100 :: (runTrace kernelInit cs).2) ∧
    (100 :: (runTrace kernelInit cs).2).Nodup ∧
    (∀ x ∈ (100 :: (runTrace kernelInit cs).2), 100 ≤ x) ∧
    (∀ q ∈ (runTrace kernelInit cs).1.processes,
       q.pid ∈ 100 :: (runTrace kernelInit cs).2) := by
  obtain ⟨h1, h2, h3, h4⟩ := runTrace_facts cs kernelInit
  have hchain : List.Chain' (· < ·) (100 :: (runTrace kernelInit cs).2) := by
    rw [List.chain'_cons']
    refine ⟨fun y hy => ?_, h2⟩
    have hb := (h3 y (List.mem_of_mem_head? hy)).1
    have hb2 : (101 : Nat) ≤ y := hb
    omega
  refine ⟨hchain, ?_, ?_, ?_⟩
  · exact (List.chain'_iff_pairwise.mp hchain).imp (fun h => Nat.ne_of_lt h)
  · intro x hx
    rcases List.mem_cons.mp hx with rfl | hx2
    · exact le_refl 100
    · have hb : (101 : Nat) ≤ x := (h3 x hx2).1
      omega
  · intro q hq
    rcases h4 q hq with h | h
    · have hq2 : q.pid ∈ [100] := h
      exact List.mem_cons.mpr (Or.inl (List.mem_singleton.mp hq2))
    · exact List.mem_cons.mpr (Or.inr h)

/-- Counterexample to C8: a path with consecutive separators resolves to
exactly the same node as the single-separator path — on the seeded tree
`//etc//passwd` and `/etc/passwd` both resolve to the same existing file
— because `resolvePath` filters out the empty segments produced by
duplicate `/`. -/
theorem dup_separators_resolve_equivalent :
    resolvePath seededFS "//etc//passwd" = resolvePath seededFS "/etc/passwd" ∧
    resolvePath seededFS "//etc//passwd"
      = some (Node.file "admin:x:0:0:root:/home/admin:/bin/sh") :=
  ⟨rfl, rfl⟩

/-- Splitting distributes over concatenation at a separator. -/
theorem splitOnSlash_slash_append (y : List Char) : ∀ x : List Char,
    splitOnSlash (x ++ '/' :: y) = splitOnSlash x ++ splitOnSlash y := by
  intro x
  induction x with
  | nil =>
    rw [List.nil_append, splitOnSlash_slash_cons]
    rfl
  | cons c x2 ih =>
    by_cases hc : c = '/'
    · subst hc
      rw [List.cons_append, splitOnSlash_slash_cons, splitOnSlash_slash_cons, ih]
      rfl
    · rw [List.cons_append]
      rcases hX : splitOnSlash (x2 ++ '/' :: y) with _ | ⟨s, ss⟩
      · exact absurd hX (splitOnSlash_ne_nil _)
      rcases hY : splitOnSlash x2 with _ | ⟨s2, ss2⟩
      · exact absurd hY (splitOnSlash_ne_nil _)
      rw [splitOnSlash_cons_ne c _ hc s ss hX, splitOnSlash_cons_ne c x2 hc s2 ss2 hY]
      rw [hX, hY, List.cons_append] at ih
      obtain ⟨hs, hss⟩ := (List.cons.injEq _ _ _ _).mp ih
      rw [hs, hss]
      rfl

/-- Segmentation distributes over concatenation with a single
separator. -/
theorem segs_append_slash (p q : String) : segs (p ++ "/" ++ q) = segs p ++ segs q := by
  unfold segs
  have h : (p ++ "/" ++ q).toList = p.toList ++ '/' :: q.toList := by
    rw [toList_append, toList_append, show ("/" : String).toList = ['/'] from by decide]
    simp
  rw [h, splitOnSlash_slash_append, List.filter_append, List.map_append]

/-- Segmentation treats a doubled separator exactly like a single one:
the empty segment between the two slashes is filtered out. -/
theorem segs_dup_slash_append (p q : String) : segs (p ++ "//" ++ q) = segs p ++ segs q := by
  unfold segs
  have h : (p ++ "//" ++ q).toList = p.toList ++ '/' :: ('/' :: q.toList) := by
    rw [toList_append, toList_append, show ("//" : String).toList = ['/', '/'] from by decide]
    simp
  rw [h, splitOnSlash_slash_append, splitOnSlash_slash_cons, List.filter_append,
    List.filter_cons, if_neg (by decide), List.map_append]

/-- Walking a single segment from a node is a literal child lookup. -/
theorem walk_singleton (m : Node) (s : String) :
    walk m [s] = (match m with
      | Node.file _ => none
      | Node.dir ch => lookupChild ch s) := by
  cases m with
  | file c => simp [walk]
  | dir ch =>
    simp only [walk]
    cases hl : lookupChild ch s with
    | none => rfl
    | some c => simp [walk]

/-- Resolving a path extended by one separator and one slash-free
segment looks the segment up as a literal child name of the resolved
node. -/
theorem resolvePath_append_seg (fs : Node) (p s : String) (hs : segs s = [s]) :
    resolvePath fs (p ++ "/" ++ s) =
      (resolvePath fs p).bind (fun n =>
        match n with
        | Node.file _ => none
        | Node.dir ch => lookupChild ch s) := by
  rw [resolvePath_eq_walk, resolvePath_eq_walk, segs_append_slash, hs, walk_append]
  rcases hw : walk fs (segs p) with _ | m
  · rfl
  · show walk m [s] = _
    exact walk_singleton m s

/-- C8 (amended): for every path, duplicate separators are collapsed — a
path written around a doubled `/` resolves to exactly the same node as
the same path with the separator written once — while `.` and `..`
segments are treated as literal child names rather than navigation: for
every tree and path, appending `/.` (resp. `/..`) resolves by looking up
a child literally named `.` (resp. `..`) instead of staying at (resp.
moving above) the resolved directory; on the seeded tree `/home/./admin`
therefore fails to resolve although `/home/admin` resolves. -/
theorem path_resolution_literal_dots_collapsed_slashes :
    (∀ (fs : Node) (p q : String),
        resolvePath fs (p ++ "//" ++ q) = resolvePath fs (p ++ "/" ++ q)) ∧
    (∀ (fs : Node) (p : String),
        resolvePath fs (p ++ "/" ++ ".") =
          (resolvePath fs p).bind (fun n =>
            match n with
            | Node.file _ => none
            | Node.dir ch => lookupChild ch ".")) ∧
    (∀ (fs : Node) (p : String),
        resolvePath fs (p ++ "/" ++ "..") =
          (resolvePath fs p).bind (fun n =>
            match n with
            | Node.file _ => none
            | Node.dir ch => lookupChild ch "..")) ∧
    resolvePath seededFS "/home/./admin" = none ∧
    (resolvePath seededFS "/home/admin").isSome = true := by
  refine ⟨?_, ?_, ?_, rfl, rfl⟩
  · intro fs p q
    rw [resolvePath_eq_walk, resolvePath_eq_walk, segs_dup_slash_append, segs_append_slash]
  · intro fs p
    exact resolvePath_append_seg fs p "." (by decide)
  · intro fs p
    exact resolvePath_append_seg fs p ".." (by decide)
